import Mathlib

/-!
Verification of the gesture-to-actuation pipeline of the Bionic-Hand project.

Host side (`src/routes/mediapipe/+page.svelte`): finger-curl metric
extraction from 21 hand landmarks, per-finger min/max calibration,
normalization to [0,1], and encoding of six PWM bytes as a comma-joined
ASCII line.

Embedded side (`arduino/servo-control/servo-control.ino`): line-based
decoding, per-channel linear mapping to servo angles with reversal,
offset and clamping, plus the thumb-rotation sub-range mapping.

JavaScript numbers are modelled as rationals (ℚ); `Math.sqrt` values live
in ℝ.  Arduino `int`/`long` arithmetic on the decode path is modelled on ℕ:
every parsed value is first clamped to [0,255] by `constrain`, after which
all intermediate values are provably non-negative and within `long` range,
so C truncating division coincides with ℕ floor division.  Strings are
modelled as `List Char`.
-/

set_option autoImplicit false

namespace BionicHand

/-! ### Host data model: landmarks and finger metrics -/

/-- A MediaPipe hand landmark: x, y coordinates and an optional z
(the source reads `p.z || 0`, so z defaults to 0 when absent). -/
structure Landmark where
  x : ℚ
  y : ℚ
  z : Option ℚ
deriving DecidableEq

/-- 3D Euclidean distance between two landmarks, from `dist` in the
source (`Math.sqrt(dx*dx + dy*dy + dz*dz)` with `z` defaulting to 0). -/
noncomputable def dist (p q : Landmark) : ℝ :=
  Real.sqrt (((p.x - q.x) * (p.x - q.x) + (p.y - q.y) * (p.y - q.y) +
    ((p.z.getD 0) - (q.z.getD 0)) * ((p.z.getD 0) - (q.z.getD 0)) : ℚ))

/-- The six curl channels produced per frame. -/
structure FingerCurlSet where
  thumb : ℝ
  index : ℝ
  middle : ℝ
  ring : ℝ
  pinky : ℝ
  thumb_rot : ℝ

/-- `computeFingerMetrics` from the source.  Landmark indices follow the
`HandLandmark` table: WRIST = 0, THUMB_MCP = 2, THUMB_TIP = 4,
INDEX_FINGER_MCP = 5, INDEX_FINGER_TIP = 8, MIDDLE_FINGER_TIP = 12,
RING_FINGER_TIP = 16, PINKY_MCP = 17, PINKY_TIP = 20.  In JavaScript an
out-of-range access yields `undefined` and the subsequent property access
throws; this is modelled by `none`. -/
noncomputable def computeFingerMetrics (landmarks : List Landmark) :
    Option FingerCurlSet :=
  match landmarks[5]?, landmarks[17]?, landmarks[4]?, landmarks[2]?,
      landmarks[8]?, landmarks[0]?, landmarks[12]?, landmarks[16]?,
      landmarks[20]? with
  | some indexMCP, some pinkyMCP, some thumbTip, some thumbMCP,
      some indexTip, some wrist, some middleTip, some ringTip,
      some pinkyTip =>
    let palmWidth : ℝ := dist indexMCP pinkyMCP + 1e-6
    some {
      thumb := dist thumbTip thumbMCP / palmWidth
      index := dist indexTip wrist / palmWidth
      middle := dist middleTip wrist / palmWidth
      ring := dist ringTip wrist / palmWidth
      pinky := dist pinkyTip wrist / palmWidth
      thumb_rot := dist thumbTip pinkyMCP / palmWidth }
  | _, _, _, _, _, _, _, _, _ => none

/-! ### Normalizer -/

/-- `normalizeCurl` from the source: returns 0 when either calibration
bound is null or when the bounds coincide, otherwise clamps
`(raw - min) / (max - min)` to [0,1].  The guard mirrors the JavaScript
condition `maxVal === minVal || minVal === null || maxVal === null`. -/
def normalizeCurl (rawValue : ℚ) (minVal maxVal : Option ℚ) : ℚ :=
  if maxVal = minVal ∨ minVal = none ∨ maxVal = none then 0
  else max 0 (min 1 ((rawValue - minVal.getD 0) / (maxVal.getD 0 - minVal.getD 0)))

/-! ### Calibration store -/

/-- The six channel names appearing as keys of a `FingerCurlSet`. -/
inductive Finger
  | thumb | index | middle | ring | pinky | thumb_rot
deriving DecidableEq

/-- Per-finger calibration record: optional min and max curl samples. -/
structure CalibrationEntry where
  min : Option ℚ
  max : Option ℚ
deriving DecidableEq

/-- Calibration table: one entry per finger (a finger never calibrated
holds `⟨none, none⟩`, matching an absent key in the JavaScript object). -/
def CalibrationTable := Finger → CalibrationEntry

/-- Which pose is being captured (the `mode` argument of `calibrate`). -/
inductive CalMode
  | min | max
deriving DecidableEq

/-- First phase of `calibrate`: `calibration[finger][mode] = fingerCurls[finger]`
for every finger. -/
def setModeValue (e : CalibrationEntry) (mode : CalMode) (v : ℚ) : CalibrationEntry :=
  match mode with
  | .min => { e with min := some v }
  | .max => { e with max := some v }

/-- Second phase of `calibrate` ("Fix inverted calibration"): when both
bounds are present and min > max, swap them. -/
def fixEntry (e : CalibrationEntry) : CalibrationEntry :=
  match e.min, e.max with
  | some a, some b => if a > b then ⟨some b, some a⟩ else e
  | _, _ => e

/-- The update phase of `calibrate` applied pointwise. -/
def calibrateUpdate (tbl : CalibrationTable) (curls : Finger → ℚ)
    (mode : CalMode) : CalibrationTable :=
  fun f => setModeValue (tbl f) mode (curls f)

/-- `calibrate` from the source: record the current curl of every finger
under `mode`, then repair any inverted min/max pair by swapping. -/
def calibrate (tbl : CalibrationTable) (curls : Finger → ℚ)
    (mode : CalMode) : CalibrationTable :=
  fun f => fixEntry (calibrateUpdate tbl curls mode f)

/-- C2: `normalizeCurl` returns exactly 0 when min is unset, max is unset,
or min equals max; in every other case it returns
`clamp((raw - min) / (max - min), 0, 1)`; the result always lies in [0,1]. -/
theorem normalizeCurl_spec (rawValue : ℚ) (minVal maxVal : Option ℚ) :
    ((minVal = none ∨ maxVal = none ∨ minVal = maxVal) →
      normalizeCurl rawValue minVal maxVal = 0) ∧
    (∀ a b : ℚ, minVal = some a → maxVal = some b → a ≠ b →
      normalizeCurl rawValue minVal maxVal =
        max 0 (min 1 ((rawValue - a) / (b - a)))) ∧
    0 ≤ normalizeCurl rawValue minVal maxVal ∧
    normalizeCurl rawValue minVal maxVal ≤ 1 := by
  refine ⟨?_, ?_, ?_, ?_⟩
  · intro h
    rcases h with h | h | h <;> simp [normalizeCurl, h]
  · intro a b ha hb hab
    subst ha; subst hb
    have hg : ¬((some b : Option ℚ) = some a ∨ (some a : Option ℚ) = none ∨
        (some b : Option ℚ) = none) := by
      simp [Ne.symm hab]
    rw [normalizeCurl, if_neg hg]
    rfl
  · unfold normalizeCurl
    split
    · exact le_refl 0
    · exact le_max_left 0 _
  · unfold normalizeCurl
    split
    · exact zero_le_one
    · exact max_le zero_le_one (min_le_left 1 _)

/-- Witness for C2 at concrete inputs. -/
theorem normalizeCurl_spec_witness :
    normalizeCurl 7 none (some 3) = 0 ∧
    normalizeCurl 3 (some 2) (some 6) = max 0 (min 1 ((3 - 2) / (6 - 2))) := by
  refine ⟨(normalizeCurl_spec 7 none (some 3)).1 (Or.inl rfl), ?_⟩
  exact (normalizeCurl_spec 3 (some 2) (some 6)).2.1 2 6 rfl rfl (by norm_num)

/-- C3: after any `calibrate` call, every finger with both bounds set has
min ≤ max, and whenever the update phase leaves min > max the two values
are swapped. -/
theorem calibrate_min_le_max :
    (∀ (tbl : CalibrationTable) (curls : Finger → ℚ) (mode : CalMode)
        (f : Finger) (a b : ℚ),
      (calibrate tbl curls mode f).min = some a →
      (calibrate tbl curls mode f).max = some b → a ≤ b) ∧
    (∀ (tbl : CalibrationTable) (curls : Finger → ℚ) (mode : CalMode)
        (f : Finger) (a b : ℚ),
      (calibrateUpdate tbl curls mode f).min = some a →
      (calibrateUpdate tbl curls mode f).max = some b → b < a →
      calibrate tbl curls mode f = ⟨some b, some a⟩) := by
  constructor
  · intro tbl curls mode f a b hmin hmax
    unfold calibrate at hmin hmax
    rcases he : calibrateUpdate tbl curls mode f with ⟨em, eM⟩
    rw [he] at hmin hmax
    rcases em with _ | x <;> rcases eM with _ | y <;>
      simp [fixEntry] at hmin hmax
    by_cases hxy : x > y
    · rw [if_pos hxy] at hmin hmax
      simp at hmin hmax
      subst hmin; subst hmax
      exact le_of_lt hxy
    · rw [if_neg hxy] at hmin hmax
      simp at hmin hmax
      subst hmin; subst hmax
      exact le_of_not_lt hxy
  · intro tbl curls mode f a b hmin hmax hba
    unfold calibrate fixEntry
    rw [hmin, hmax]
    simp only
    rw [if_pos hba]

/-- Witness for C3: capturing the "max" pose first with value 5, then the
"min" pose with the larger value 9, still ends with min = 5 ≤ max = 9;
and the update phase indeed left the inverted pair ⟨9, 5⟩. -/
theorem calibrate_min_le_max_witness :
    (5 : ℚ) ≤ 9 ∧
    calibrate (calibrate (fun _ => ⟨none, none⟩) (fun _ => 5) CalMode.max)
        (fun _ => 9) CalMode.min Finger.thumb = ⟨some 5, some 9⟩ := by
  constructor
  · exact calibrate_min_le_max.1
      (calibrate (fun _ => ⟨none, none⟩) (fun _ => 5) CalMode.max)
      (fun _ => 9) CalMode.min Finger.thumb 5 9 (by decide) (by decide)
  · exact calibrate_min_le_max.2
      (calibrate (fun _ => ⟨none, none⟩) (fun _ => 5) CalMode.max)
      (fun _ => 9) CalMode.min Finger.thumb 9 5 (by decide) (by decide)
      (by norm_num)

/-! ### Metric extractor theorems -/

/-- Reduction of `computeFingerMetrics` on any list holding at least 21
landmarks (shared helper). -/
theorem computeFingerMetrics_eq (l : List Landmark) (h : 21 ≤ l.length) :
    computeFingerMetrics l = some {
      thumb := dist (l.get ⟨4, by omega⟩) (l.get ⟨2, by omega⟩) /
        (dist (l.get ⟨5, by omega⟩) (l.get ⟨17, by omega⟩) + 1e-6)
      index := dist (l.get ⟨8, by omega⟩) (l.get ⟨0, by omega⟩) /
        (dist (l.get ⟨5, by omega⟩) (l.get ⟨17, by omega⟩) + 1e-6)
      middle := dist (l.get ⟨12, by omega⟩) (l.get ⟨0, by omega⟩) /
        (dist (l.get ⟨5, by omega⟩) (l.get ⟨17, by omega⟩) + 1e-6)
      ring := dist (l.get ⟨16, by omega⟩) (l.get ⟨0, by omega⟩) /
        (dist (l.get ⟨5, by omega⟩) (l.get ⟨17, by omega⟩) + 1e-6)
      pinky := dist (l.get ⟨20, by omega⟩) (l.get ⟨0, by omega⟩) /
        (dist (l.get ⟨5, by omega⟩) (l.get ⟨17, by omega⟩) + 1e-6)
      thumb_rot := dist (l.get ⟨4, by omega⟩) (l.get ⟨17, by omega⟩) /
        (dist (l.get ⟨5, by omega⟩) (l.get ⟨17, by omega⟩) + 1e-6) } := by
  unfold computeFingerMetrics
  rw [List.getElem?_eq_getElem (show 5 < l.length by omega),
    List.getElem?_eq_getElem (show 17 < l.length by omega),
    List.getElem?_eq_getElem (show 4 < l.length by omega),
    List.getElem?_eq_getElem (show 2 < l.length by omega),
    List.getElem?_eq_getElem (show 8 < l.length by omega),
    List.getElem?_eq_getElem (show 0 < l.length by omega),
    List.getElem?_eq_getElem (show 12 < l.length by omega),
    List.getElem?_eq_getElem (show 16 < l.length by omega),
    List.getElem?_eq_getElem (show 20 < l.length by omega)]
  rfl

/-- The metric extractor as the spec's words describe it (§4.1), over a
hand of exactly 21 landmarks: palm width is the index-MCP-to-pinky-MCP
distance plus 1e-6; each finger curl is tip-to-base distance over palm
width with the wrist as base except for the thumb, whose base is its own
MCP; thumb rotation is thumb-tip-to-pinky-MCP distance over palm width. -/
noncomputable def specFingerMetrics (hand : Fin 21 → Landmark) : FingerCurlSet :=
  let palmWidth : ℝ := dist (hand 5) (hand 17) + 1e-6
  { thumb := dist (hand 4) (hand 2) / palmWidth
    index := dist (hand 8) (hand 0) / palmWidth
    middle := dist (hand 12) (hand 0) / palmWidth
    ring := dist (hand 16) (hand 0) / palmWidth
    pinky := dist (hand 20) (hand 0) / palmWidth
    thumb_rot := dist (hand 4) (hand 17) / palmWidth }

/-- C6: on every 21-landmark hand the extractor computes exactly the
palm-width, per-finger curl and thumb-rotation formulas of the spec
(wrist base for index/middle/ring/pinky, thumb-MCP base for the thumb). -/
theorem computeFingerMetrics_matches_spec (l : List Landmark)
    (h : l.length = 21) :
    computeFingerMetrics l =
      some (specFingerMetrics (fun i => l.get ⟨i.val, by omega⟩)) := by
  rw [computeFingerMetrics_eq l (le_of_eq h.symm)]
  rfl

/-- Witness for C6 at a concrete 21-landmark hand. -/
theorem computeFingerMetrics_matches_spec_witness :
    computeFingerMetrics (List.replicate 21 (⟨0, 0, none⟩ : Landmark)) =
      some (specFingerMetrics
        (fun i => (List.replicate 21 (⟨0, 0, none⟩ : Landmark)).get
          ⟨i.val, by simp⟩)) :=
  computeFingerMetrics_matches_spec _ (by simp)

/-- C7 counterexample: a 22-landmark hand is not rejected — the extractor
produces a `FingerCurlSet` even though the landmark count is not 21. -/
theorem computeFingerMetrics_accepts_22 :
    (List.replicate 22 (⟨0, 0, none⟩ : Landmark)).length ≠ 21 ∧
    (computeFingerMetrics
      (List.replicate 22 (⟨0, 0, none⟩ : Landmark))).isSome = true := by
  refine ⟨by simp, ?_⟩
  rw [computeFingerMetrics_eq _ (by simp)]
  rfl

/-- C7 amended: the extractor fails (a missing-landmark access throws)
exactly when the hand has fewer than 21 landmarks; with 21 or more it
produces a `FingerCurlSet`, ignoring landmarks beyond the 21st. -/
theorem computeFingerMetrics_isSome_iff (l : List Landmark) :
    (computeFingerMetrics l).isSome ↔ 21 ≤ l.length := by
  constructor
  · intro h
    unfold computeFingerMetrics at h
    split at h
    · rename_i h20
      obtain ⟨hlt, -⟩ := List.getElem?_eq_some.mp h20
      omega
    · simp at h
  · intro h
    rw [computeFingerMetrics_eq l h]
    rfl

/-- Witness for C7's amended theorem: a 21-landmark hand is accepted. -/
theorem computeFingerMetrics_isSome_iff_witness :
    (computeFingerMetrics
      (List.replicate 21 (⟨0, 0, none⟩ : Landmark))).isSome :=
  (computeFingerMetrics_isSome_iff _).mpr (by simp)

/-- C9: on every valid 21-landmark hand (and any longer list) the
extractor succeeds, the palm-width divisor is strictly positive thanks to
the 1e-6 epsilon, and all six curl values are non-negative (hence no
NaN/∞ can arise in the real-number idealization). -/
theorem computeFingerMetrics_nonneg (l : List Landmark)
    (h : 21 ≤ l.length) :
    ∃ c : FingerCurlSet, computeFingerMetrics l = some c ∧
      0 < dist (l.get ⟨5, by omega⟩) (l.get ⟨17, by omega⟩) + 1e-6 ∧
      0 ≤ c.thumb ∧ 0 ≤ c.index ∧ 0 ≤ c.middle ∧
      0 ≤ c.ring ∧ 0 ≤ c.pinky ∧ 0 ≤ c.thumb_rot := by
  have hpalm : (0:ℝ) <
      dist (l.get ⟨5, by omega⟩) (l.get ⟨17, by omega⟩) + 1e-6 := by
    have h1 : (0:ℝ) ≤ dist (l.get ⟨5, by omega⟩) (l.get ⟨17, by omega⟩) :=
      Real.sqrt_nonneg _
    have h2 : (0:ℝ) < 1e-6 := by norm_num
    linarith
  refine ⟨_, computeFingerMetrics_eq l h, hpalm, ?_, ?_, ?_, ?_, ?_, ?_⟩ <;>
    exact div_nonneg (Real.sqrt_nonneg _) (le_of_lt hpalm)

/-- Witness for C9 at a concrete 21-landmark hand. -/
theorem computeFingerMetrics_nonneg_witness :
    ∃ c : FingerCurlSet,
      computeFingerMetrics (List.replicate 21 (⟨0, 0, none⟩ : Landmark)) =
        some c ∧
      0 < dist ((List.replicate 21 (⟨0, 0, none⟩ : Landmark)).get
          ⟨5, by simp⟩)
        ((List.replicate 21 (⟨0, 0, none⟩ : Landmark)).get ⟨17, by simp⟩) +
        1e-6 ∧
      0 ≤ c.thumb ∧ 0 ≤ c.index ∧ 0 ≤ c.middle ∧
      0 ≤ c.ring ∧ 0 ≤ c.pinky ∧ 0 ≤ c.thumb_rot :=
  computeFingerMetrics_nonneg _ (by simp)

/-! ### Embedded decoder (servo-control.ino)

`loop()` reads a line up to a newline, trims it, tokenizes it on `','`
with `strtok` (which skips empty segments), parses each token with `atoi`
and clamps it to [0,255] with `constrain`, keeping at most six values.
With at least five values it drives the five main servos; with at least
six it additionally drives the thumb-rotation servo. -/

/-- C `isspace` on the characters it accepts (Arduino `String::trim`
strips these from both ends). -/
def isSpaceC (c : Char) : Bool :=
  c = ' ' || c = '\t' || c = '\n' || c = '\x0b' || c = '\x0c' || c = '\r'

/-- Arduino `String::trim`: remove leading and trailing whitespace. -/
def trimC (l : List Char) : List Char :=
  ((l.dropWhile isSpaceC).reverse.dropWhile isSpaceC).reverse

/-- Accumulate the leading decimal digits (helper for `atoi`). -/
def digitsVal : List Char → ℕ → ℕ
  | [], acc => acc
  | c :: cs, acc =>
    if c.isDigit then digitsVal cs (acc * 10 + (c.toNat - '0'.toNat)) else acc

/-- C `atoi`: skip leading whitespace, read an optional sign and then
decimal digits, stopping at the first non-digit; garbage parses as 0.
(Modelled on unbounded integers; the caller immediately clamps the result
to [0,255], so platform overflow cannot affect any servo command.) -/
def atoi (cs : List Char) : ℤ :=
  let cs := cs.dropWhile isSpaceC
  match cs with
  | '-' :: rest => -(digitsVal rest 0 : ℤ)
  | '+' :: rest => (digitsVal rest 0 : ℤ)
  | _ => (digitsVal cs 0 : ℤ)

/-- Arduino `constrain` macro on integers. -/
def constrainI (x lo hi : ℤ) : ℤ :=
  if x < lo then lo else if x > hi then hi else x

/-- Arduino `constrain` on the non-negative decode path. -/
def constrainN (x lo hi : ℕ) : ℕ :=
  if x < lo then lo else if x > hi then hi else x

/-- Arduino `map()`: `(x - in_min) * (out_max - out_min) / (in_max - in_min)
+ out_min`, computed in `long` arithmetic with truncating division.  On the
decode path every argument is non-negative and `x ≥ in_min`, so ℕ floor
division is the exact semantics. -/
def mapRange (x inMin inMax outMin outMax : ℕ) : ℕ :=
  (x - inMin) * (outMax - outMin) / (inMax - inMin) + outMin

/-- `strtok(line, ",")` repeated: the non-empty comma-separated segments. -/
def tokensOf (t : List Char) : List (List Char) :=
  (t.splitOn ',').filter (fun s => !s.isEmpty)

/-- The parsed values array: up to six tokens, each `atoi`-parsed and
clamped to [0,255] (`constrain(atoi(token), INPUT_MIN, INPUT_MAX)`). -/
def lineVals (t : List Char) : List ℕ :=
  ((tokensOf t).take 6).map (fun tok => (constrainI (atoi tok) 0 255).toNat)

/-- `reversed[5] = {true, true, false, true, true}` (per servo slot). -/
def reversedA : Fin 5 → Bool := ![true, true, false, true, true]

/-- `offset[5] = {0, 0, 0, 25, 0}` (degrees, per servo slot). -/
def offsetA : Fin 5 → ℕ := ![0, 0, 0, 25, 0]

/-- `thumbRotOffset = 0`. -/
def thumbRotOffset : ℕ := 0

/-- Angle computed for main servo slot `i` from clamped wire value `v`:
linear [0,255]→[0,180] map, reversal where flagged, offset, clamp. -/
def mainAngleCode (i : Fin 5) (v : ℕ) : ℕ :=
  let angle := mapRange v 0 255 0 180
  let angle2 := if reversedA i then 180 - angle else angle
  constrainN (angle2 + offsetA i) 0 180

/-- Angle computed for the thumb-rotation servo from clamped wire value
`v`: clamp to the [30,220] sub-range, map to [0,180], add offset, clamp. -/
def rotAngleCode (v : ℕ) : ℕ :=
  constrainN
    (mapRange (constrainN v 30 220) 30 220 0 180 + thumbRotOffset) 0 180

/-- The servo writes performed for a parsed values array: five main
writes when at least five values parsed, plus the rotation write when at
least six parsed.  Channel 0-4 are the main servo slots, channel 5 the
rotation servo. -/
def actuationWrites (vals : List ℕ) : List (Fin 6 × ℕ) :=
  (if 5 ≤ vals.length then
    (List.finRange 5).map
      (fun i => ((i.castSucc : Fin 6), mainAngleCode i (vals.getD i 0)))
  else []) ++
  (if 6 ≤ vals.length then [((5 : Fin 6), rotAngleCode (vals.getD 5 0))]
  else [])

/-- One `loop()` cycle on a received line: trim, drop empty lines, parse,
actuate. -/
def lineWrites (line : List Char) : List (Fin 6 × ℕ) :=
  if (trimC line).isEmpty then [] else actuationWrites (lineVals (trimC line))

/-- The servo writes performed by `setup()`: each main servo starts at
`90 + offset[i]`, the rotation servo at `90 + thumbRotOffset`. -/
def setupWrites : List (Fin 6 × ℕ) :=
  (List.finRange 5).map (fun i => ((i.castSucc : Fin 6), 90 + offsetA i)) ++
    [((5 : Fin 6), 90 + thumbRotOffset)]

/-- `Serial.readStringUntil('\n')`: the received chars before the newline. -/
def receivedLine (stream : List Char) : List Char :=
  stream.takeWhile (fun c => c != '\n')

/-! ### Decoder theorems -/

/-- The writes of a line are fully determined by its parsed values
(shared helper; the empty-line early exit coincides with the
zero-values case). -/
theorem lineWrites_eq_actuation (line : List Char) :
    lineWrites line = actuationWrites (lineVals (trimC line)) := by
  unfold lineWrites
  split
  · rename_i h
    rw [List.isEmpty_iff.mp h]
    simp [lineVals, tokensOf, actuationWrites]
  · rfl

/-- Number of parsed values: the token count capped at six. -/
theorem lineVals_length (t : List Char) :
    (lineVals t).length = min 6 (tokensOf t).length := by
  simp [lineVals]

/-- C4: a line with at most 4 tokens causes no actuation; exactly 5
tokens actuate exactly the five main channels; 6 or more tokens actuate
all six channels; and the writes depend only on the first six tokens, so
tokens beyond the sixth are ignored. -/
theorem decode_actuation_cases (line : List Char) :
    ((tokensOf (trimC line)).length ≤ 4 → lineWrites line = []) ∧
    ((tokensOf (trimC line)).length = 5 →
      (lineWrites line).map Prod.fst = [0, 1, 2, 3, 4]) ∧
    (6 ≤ (tokensOf (trimC line)).length →
      (lineWrites line).map Prod.fst = [0, 1, 2, 3, 4, 5]) ∧
    (∀ line₂ : List Char,
      (tokensOf (trimC line)).take 6 = (tokensOf (trimC line₂)).take 6 →
      lineWrites line = lineWrites line₂) := by
  have hlen := lineVals_length (trimC line)
  refine ⟨?_, ?_, ?_, ?_⟩
  · intro h
    rw [lineWrites_eq_actuation]
    unfold actuationWrites
    rw [if_neg (by omega), if_neg (by omega)]
    rfl
  · intro h
    rw [lineWrites_eq_actuation]
    unfold actuationWrites
    rw [if_pos (by omega), if_neg (by omega)]
    simp only [List.append_nil, List.map_map]
    have hc : Prod.fst ∘
        (fun i : Fin 5 =>
          ((i.castSucc : Fin 6),
            mainAngleCode i ((lineVals (trimC line)).getD i 0))) =
        fun i : Fin 5 => (i.castSucc : Fin 6) := rfl
    rw [hc]
    decide
  · intro h
    rw [lineWrites_eq_actuation]
    unfold actuationWrites
    rw [if_pos (by omega), if_pos (by omega)]
    simp only [List.map_append, List.map_map]
    have hc : Prod.fst ∘
        (fun i : Fin 5 =>
          ((i.castSucc : Fin 6),
            mainAngleCode i ((lineVals (trimC line)).getD i 0))) =
        fun i : Fin 5 => (i.castSucc : Fin 6) := rfl
    rw [hc]
    simp only [List.map_cons, List.map_nil]
    decide
  · intro line₂ heq
    rw [lineWrites_eq_actuation, lineWrites_eq_actuation]
    unfold lineVals
    rw [heq]

/-- Witness for C4: a 2-token line writes nothing, a 5-token line writes
the five main channels, a 7-token line writes all six channels. -/
theorem decode_actuation_cases_witness :
    lineWrites "12,34".data = [] ∧
    (lineWrites "1,2,3,4,5".data).map Prod.fst = [0, 1, 2, 3, 4] ∧
    (lineWrites "1,2,3,4,5,6,7".data).map Prod.fst = [0, 1, 2, 3, 4, 5] :=
  ⟨(decode_actuation_cases "12,34".data).1 (by decide),
    (decode_actuation_cases "1,2,3,4,5".data).2.1 (by decide),
    (decode_actuation_cases "1,2,3,4,5,6,7".data).2.2.1 (by decide)⟩

/-- `constrain` with bounds `0, hi` is capping at `hi`. -/
theorem constrainN_zero_eq_min (x hi : ℕ) : constrainN x 0 hi = min hi x := by
  unfold constrainN
  split_ifs <;> omega

/-- Every clamped angle is at most the upper bound. -/
theorem constrainN_le (x lo hi : ℕ) (h : lo ≤ hi) : constrainN x lo hi ≤ hi := by
  unfold constrainN
  split_ifs <;> omega

/-- C10: every angle ever written to any servo lies in [0,180]: the
startup writes are `90 + offset` (115 for the pinky slot, 90 elsewhere)
and every per-line write is clamped to [0,180]. -/
theorem all_writes_bounded :
    setupWrites = [(0, 90), (1, 90), (2, 90), (3, 115), (4, 90), (5, 90)] ∧
    (∀ w ∈ setupWrites, w.2 ≤ 180) ∧
    (∀ (line : List Char), ∀ w ∈ lineWrites line, w.2 ≤ 180) := by
  refine ⟨by decide, by decide, ?_⟩
  intro line w hw
  rw [lineWrites_eq_actuation] at hw
  unfold actuationWrites at hw
  rcases List.mem_append.mp hw with hm | hm
  · split at hm
    · rcases List.mem_map.mp hm with ⟨i, -, rfl⟩
      exact constrainN_le _ 0 180 (Nat.zero_le 180)
    · simp at hm
  · split at hm
    · rcases List.mem_singleton.mp hm with rfl
      exact constrainN_le _ 0 180 (Nat.zero_le 180)
    · simp at hm

/-- Witness for C10: the first write of a concrete all-zero line is
bounded by 180. -/
theorem all_writes_bounded_witness :
    ((0 : Fin 6), (180 : ℕ)).2 ≤ 180 :=
  all_writes_bounded.2.2 "0,0,0,0,0,0".data ((0 : Fin 6), (180 : ℕ))
    (by decide)

/-! ### Exact (rational) actuation maps, as the spec words them -/

/-- Rational clamp to `[lo, hi]`. -/
def clampQ (x lo hi : ℚ) : ℚ := min hi (max lo x)

/-- The exact linear servo map of a main channel as the spec describes
it: linear [0,255]→[0,180] map of the wire value, `180 - angle` where the
channel's reversal flag is set, plus the channel offset, clamped to
[0,180]. -/
def exactMainAngle (i : Fin 5) (p : ℕ) : ℚ :=
  clampQ ((if reversedA i then 180 - (p : ℚ) * 180 / 255
    else (p : ℚ) * 180 / 255) + (offsetA i : ℚ)) 0 180

/-- The exact thumb-rotation map as the spec describes it: clamp the wire
value to the [30,220] sub-range, map it linearly from [30,220] to
[0,180], add the offset (0), clamp to [0,180]. -/
def exactRotAngle (p : ℕ) : ℚ :=
  clampQ ((clampQ (p : ℚ) 30 220 - 30) * 180 / 190 + (thumbRotOffset : ℚ)) 0 180

/-- The thumb-rotation pipeline in the order the spec words it: clamp the
raw wire value to [30,220], integer-map that sub-range to [0,180], add the
offset (0), clamp to [0,180]. -/
def specRotAngle (v : ℕ) : ℕ :=
  let clamped := constrainN v 30 220
  let angle := (clamped - 30) * 180 / 190
  constrainN (angle + 0) 0 180

/-- The embedded rotation computation is exactly the spec's pipeline. -/
theorem rotAngleCode_eq_spec (v : ℕ) : rotAngleCode v = specRotAngle v := rfl

/-! ### Floor-division tolerance lemmas -/

/-- ℕ floor division against exact rational division: the exact quotient
lies in `[q, q + 1)` above the floor `q`. -/
theorem natDiv_ratDiv_bounds (a b : ℕ) (hb : 0 < b) :
    ((a / b : ℕ) : ℚ) ≤ (a : ℚ) / (b : ℚ) ∧
      (a : ℚ) / (b : ℚ) < ((a / b : ℕ) : ℚ) + 1 := by
  have hbq : (0 : ℚ) < (b : ℚ) := by exact_mod_cast hb
  constructor
  · rw [le_div_iff₀ hbq]
    exact_mod_cast Nat.div_mul_le_self a b
  · rw [div_lt_iff₀ hbq]
    have h2 : a < (a / b + 1) * b := by
      calc a = b * (a / b) + a % b := (Nat.div_add_mod a b).symm
        _ < b * (a / b) + b := by
            have := Nat.mod_lt a hb
            omega
        _ = (a / b + 1) * b := by ring
    exact_mod_cast h2

/-- Capping at a common upper bound is 1-Lipschitz. -/
theorem abs_min_sub_min (c x y : ℚ) : |min c x - min c y| ≤ |x - y| := by
  calc |min c x - min c y| ≤ max |c - c| |x - y| :=
        abs_min_sub_min_le_max c x c y
    _ = |x - y| := by
        rw [sub_self, abs_zero]
        exact max_eq_right (abs_nonneg _)

/-- The integer main-channel angle is within one degree of the exact
linear map, for every clamped wire value. -/
theorem mainAngleCode_near (i : Fin 5) (v : ℕ) (hv : v ≤ 255) :
    |(mainAngleCode i v : ℚ) - exactMainAngle i v| ≤ 1 := by
  have hqd := natDiv_ratDiv_bounds (v * 180) 255 (by norm_num)
  have hcast : ((v * 180 : ℕ) : ℚ) = (v : ℚ) * 180 / 255 * 255 := by
    push_cast
    ring
  have h1 : ((v * 180 / 255 : ℕ) : ℚ) ≤ (v : ℚ) * 180 / 255 := by
    have := hqd.1
    rw [hcast] at this
    calc ((v * 180 / 255 : ℕ) : ℚ) ≤ (v : ℚ) * 180 / 255 * 255 / 255 := this
      _ = (v : ℚ) * 180 / 255 := by ring
  have h2 : (v : ℚ) * 180 / 255 < ((v * 180 / 255 : ℕ) : ℚ) + 1 := by
    have := hqd.2
    rw [hcast] at this
    calc (v : ℚ) * 180 / 255 = (v : ℚ) * 180 / 255 * 255 / 255 := by ring
      _ < ((v * 180 / 255 : ℕ) : ℚ) + 1 := this
  have hq180 : v * 180 / 255 ≤ 180 := by
    have h := Nat.div_le_div_right (c := 255) (Nat.mul_le_mul_right 180 hv)
    omega
  have hvq : (v : ℚ) ≤ 255 := by exact_mod_cast hv
  have he0 : (0 : ℚ) ≤ (v : ℚ) * 180 / 255 := by positivity
  have he180 : (v : ℚ) * 180 / 255 ≤ 180 := by
    rw [div_le_iff₀ (by norm_num : (0 : ℚ) < 255)]
    nlinarith
  have hoff : (0 : ℚ) ≤ (offsetA i : ℚ) := Nat.cast_nonneg _
  have hm : mapRange v 0 255 0 180 = v * 180 / 255 := rfl
  unfold mainAngleCode exactMainAngle
  rw [hm, constrainN_zero_eq_min]
  unfold clampQ
  cases hrev : reversedA i
  · simp only [Bool.false_eq_true, if_false]
    rw [max_eq_right (by linarith)]
    rw [Nat.cast_min, Nat.cast_add]
    push_cast
    calc |min 180 (((v * 180 / 255 : ℕ) : ℚ) + (offsetA i : ℚ)) -
          min 180 ((v : ℚ) * 180 / 255 + (offsetA i : ℚ))|
        ≤ |(((v * 180 / 255 : ℕ) : ℚ) + (offsetA i : ℚ)) -
            ((v : ℚ) * 180 / 255 + (offsetA i : ℚ))| := abs_min_sub_min _ _ _
      _ = |((v * 180 / 255 : ℕ) : ℚ) - (v : ℚ) * 180 / 255| := by ring_nf
      _ ≤ 1 := by
          rw [abs_le]
          constructor <;> linarith
  · simp only [if_true]
    rw [max_eq_right (by linarith)]
    rw [Nat.cast_min, Nat.cast_add, Nat.cast_sub hq180]
    push_cast
    calc |min 180 ((180 : ℚ) - ((v * 180 / 255 : ℕ) : ℚ) + (offsetA i : ℚ)) -
          min 180 ((180 : ℚ) - (v : ℚ) * 180 / 255 + (offsetA i : ℚ))|
        ≤ |((180 : ℚ) - ((v * 180 / 255 : ℕ) : ℚ) + (offsetA i : ℚ)) -
            ((180 : ℚ) - (v : ℚ) * 180 / 255 + (offsetA i : ℚ))| :=
          abs_min_sub_min _ _ _
      _ = |(v : ℚ) * 180 / 255 - ((v * 180 / 255 : ℕ) : ℚ)| := by ring_nf
      _ ≤ 1 := by
          rw [abs_le]
          constructor <;> linarith

/-- The integer thumb-rotation angle is within one degree of the exact
sub-range linear map, for every wire value. -/
theorem rotAngleCode_near (v : ℕ) :
    |(rotAngleCode v : ℚ) - exactRotAngle v| ≤ 1 := by
  have hc1 : 30 ≤ constrainN v 30 220 ∧ constrainN v 30 220 ≤ 220 := by
    unfold constrainN
    split_ifs <;> omega
  have hcq : ((constrainN v 30 220 : ℕ) : ℚ) = clampQ (v : ℚ) 30 220 := by
    have h1 : constrainN v 30 220 = min 220 (max 30 v) := by
      unfold constrainN
      split_ifs <;> omega
    rw [h1]
    unfold clampQ
    push_cast
    rfl
  set c : ℕ := constrainN v 30 220 with hcdef
  have hqd := natDiv_ratDiv_bounds ((c - 30) * 180) 190 (by norm_num)
  have hcast : (((c - 30) * 180 : ℕ) : ℚ) = ((c : ℚ) - 30) * 180 := by
    push_cast [Nat.cast_sub hc1.1]
    ring
  have h1 : (((c - 30) * 180 / 190 : ℕ) : ℚ) ≤ ((c : ℚ) - 30) * 180 / 190 := by
    have := hqd.1
    rw [hcast] at this
    linarith [this]
  have h2 : ((c : ℚ) - 30) * 180 / 190 < (((c - 30) * 180 / 190 : ℕ) : ℚ) + 1 := by
    have := hqd.2
    rw [hcast] at this
    linarith [this]
  have hq180 : (c - 30) * 180 / 190 ≤ 180 := by
    have hle : (c - 30) * 180 ≤ 190 * 180 := by
      have : c - 30 ≤ 190 := by omega
      exact Nat.mul_le_mul_right 180 this
    have h := Nat.div_le_div_right (c := 190) hle
    omega
  have hcq30 : (30 : ℚ) ≤ (c : ℚ) := by exact_mod_cast hc1.1
  have hcq220 : (c : ℚ) ≤ 220 := by exact_mod_cast hc1.2
  have he0 : (0 : ℚ) ≤ ((c : ℚ) - 30) * 180 / 190 := by
    apply div_nonneg _ (by norm_num)
    nlinarith
  have he180 : ((c : ℚ) - 30) * 180 / 190 ≤ 180 := by
    rw [div_le_iff₀ (by norm_num : (0 : ℚ) < 190)]
    nlinarith
  have hm : rotAngleCode v = constrainN ((c - 30) * 180 / 190) 0 180 := rfl
  have hz : (thumbRotOffset : ℚ) = 0 := rfl
  rw [hm, constrainN_zero_eq_min, exactRotAngle, ← hcq, hz, add_zero, clampQ]
  rw [max_eq_right (by linarith)]
  rw [Nat.cast_min]
  push_cast
  calc |min 180 (((c - 30) * 180 / 190 : ℕ) : ℚ) -
        min 180 (((c : ℚ) - 30) * 180 / 190)|
      ≤ |(((c - 30) * 180 / 190 : ℕ) : ℚ) - ((c : ℚ) - 30) * 180 / 190| :=
        abs_min_sub_min _ _ _
    _ ≤ 1 := by
        rw [abs_le]
        constructor <;> linarith

/-- C8: on every line with at least six tokens the rotation servo is
driven by the spec's pipeline — clamp the wire value to [30,220], map
that sub-range linearly to [0,180] (within one degree, being integer
floor), add the offset 0, clamp to [0,180]; in particular wire value 10
clamps to 30 and maps to angle 0. -/
theorem thumb_rotation_decode :
    (∀ line : List Char, 6 ≤ (tokensOf (trimC line)).length →
      ((5 : Fin 6), specRotAngle ((lineVals (trimC line)).getD 5 0)) ∈
        lineWrites line) ∧
    (∀ v : ℕ, rotAngleCode v = specRotAngle v) ∧
    constrainN 10 30 220 = 30 ∧
    specRotAngle 10 = 0 ∧
    (∀ v : ℕ, |(specRotAngle v : ℚ) - exactRotAngle v| ≤ 1) := by
  refine ⟨?_, rotAngleCode_eq_spec, by decide, by decide, ?_⟩
  · intro line h6
    have hlen := lineVals_length (trimC line)
    rw [lineWrites_eq_actuation]
    unfold actuationWrites
    rw [if_pos (by omega), if_pos (by omega)]
    rw [← rotAngleCode_eq_spec]
    exact List.mem_append_right _ (List.mem_singleton.mpr rfl)
  · intro v
    rw [← rotAngleCode_eq_spec]
    exact rotAngleCode_near v

/-- Witness for C8 at a concrete six-token line carrying rotation wire
value 10, and at wire value 10 for the tolerance bound. -/
theorem thumb_rotation_decode_witness :
    ((5 : Fin 6),
      specRotAngle ((lineVals (trimC "0,0,0,0,0,10".data)).getD 5 0)) ∈
      lineWrites "0,0,0,0,0,10".data ∧
    |(specRotAngle 10 : ℚ) - exactRotAngle 10| ≤ 1 :=
  ⟨thumb_rotation_decode.1 "0,0,0,0,0,10".data (by decide),
    thumb_rotation_decode.2.2.2.2 10⟩

/-! ### Host protocol encoder (`sendToArduino` / `sendSerialData`) -/

/-- The six normalized curl values of a frame, each nominally in [0,1]. -/
structure NormalizedCurlSet where
  thumb : ℚ
  index : ℚ
  middle : ℚ
  ring : ℚ
  pinky : ℚ
  thumb_rot : ℚ

/-- All six channels lie in the unit interval. -/
def inUnitInterval (n : NormalizedCurlSet) : Prop :=
  0 ≤ n.thumb ∧ n.thumb ≤ 1 ∧ 0 ≤ n.index ∧ n.index ≤ 1 ∧
  0 ≤ n.middle ∧ n.middle ≤ 1 ∧ 0 ≤ n.ring ∧ n.ring ≤ 1 ∧
  0 ≤ n.pinky ∧ n.pinky ≤ 1 ∧ 0 ≤ n.thumb_rot ∧ n.thumb_rot ≤ 1

/-- `Math.round(v * 255)`: JavaScript rounds half up, which on exact
rationals is `round` (i.e. `⌊x + 1/2⌋`). -/
def pwmOfVal (v : ℚ) : ℤ := round (v * 255)

/-- The six PWM integers of `sendToArduino`, in source order
thumb, index, middle, ring, pinky, thumb_rot. -/
def encodePwms (n : NormalizedCurlSet) : List ℤ :=
  [pwmOfVal n.thumb, pwmOfVal n.index, pwmOfVal n.middle,
    pwmOfVal n.ring, pwmOfVal n.pinky, pwmOfVal n.thumb_rot]

/-- The message template of `sendToArduino`: the six decimal integers
joined by commas. -/
def encodeMessage (n : NormalizedCurlSet) : List Char :=
  List.intercalate [','] ((encodePwms n).map (fun p => (toString p).data))

/-- `sendSerialData`: `writer.write(data + '\n')`. -/
def sendSerialData (data : List Char) : List Char := data ++ ['\n']

/-! ### String-level helper lemmas -/

set_option maxRecDepth 10000 in
set_option maxHeartbeats 1000000 in
/-- Facts about the decimal rendering of every wire byte: it is
non-empty, contains no comma, newline or whitespace, and `atoi` parses it
back exactly. -/
theorem intTok_facts : ∀ p ∈ Finset.Icc (0 : ℤ) 255,
    (toString p).data ≠ [] ∧
    (∀ c ∈ (toString p).data, c ≠ ',' ∧ c ≠ '\n' ∧ isSpaceC c = false) ∧
    atoi (toString p).data = p := by decide

/-- Rounding a unit-interval value times 255 lands in [0,255]. -/
theorem pwmOfVal_mem (v : ℚ) (h0 : 0 ≤ v) (h1 : v ≤ 1) :
    0 ≤ pwmOfVal v ∧ pwmOfVal v ≤ 255 := by
  unfold pwmOfVal
  rw [round_eq]
  constructor
  · exact Int.floor_nonneg.mpr (by linarith)
  · have hfl : (⌊v * 255 + 1 / 2⌋ : ℚ) ≤ v * 255 + 1 / 2 := Int.floor_le _
    have h256 : ((⌊v * 255 + 1 / 2⌋ : ℤ) : ℚ) < 256 := by linarith
    have : (⌊v * 255 + 1 / 2⌋ : ℤ) < 256 := by exact_mod_cast h256
    omega

/-- `dropWhile` is the identity when no element satisfies the predicate. -/
theorem dropWhile_eq_self_of (p : Char → Bool) (l : List Char)
    (h : ∀ c ∈ l, p c = false) : l.dropWhile p = l := by
  cases l with
  | nil => rfl
  | cons a as => simp [List.dropWhile_cons, h a (List.mem_cons_self a as)]

/-- Trimming a line with no whitespace characters is the identity. -/
theorem trimC_eq_self (l : List Char) (h : ∀ c ∈ l, isSpaceC c = false) :
    trimC l = l := by
  unfold trimC
  rw [dropWhile_eq_self_of _ _ h,
    dropWhile_eq_self_of _ _ (fun c hc => h c (List.mem_reverse.mp hc))]
  exact List.reverse_reverse l

/-- Reading until the newline recovers exactly a newline-free payload. -/
theorem receivedLine_frame (l r : List Char) (h : ∀ c ∈ l, c ≠ '\n') :
    receivedLine (l ++ '\n' :: r) = l := by
  unfold receivedLine
  induction l with
  | nil => simp
  | cons a as ih =>
    have ha : (a != '\n') = true := by
      simpa using h a (List.mem_cons_self a as)
    simp only [List.cons_append, List.takeWhile_cons, ha, if_true]
    rw [ih (fun c hc => h c (List.mem_cons_of_mem a hc))]

/-- Every character of a comma-joined message is a comma or comes from
one of the joined tokens. -/
theorem mem_intercalate_comma (toks : List (List Char)) (c : Char)
    (h : c ∈ List.intercalate [','] toks) : c = ',' ∨ ∃ t ∈ toks, c ∈ t := by
  induction toks with
  | nil => simp [List.intercalate] at h
  | cons t rest ih =>
    cases rest with
    | nil =>
      simp [List.intercalate] at h
      exact Or.inr ⟨t, List.mem_singleton.mpr rfl, h⟩
    | cons t₂ rest₂ =>
      have hstep : List.intercalate [','] (t :: t₂ :: rest₂) =
          t ++ ',' :: List.intercalate [','] (t₂ :: rest₂) := by
        simp [List.intercalate, List.intersperse_cons_cons]
      rw [hstep] at h
      rcases List.mem_append.mp h with hm | hm
      · exact Or.inr ⟨t, List.mem_cons_self t _, hm⟩
      · rcases List.mem_cons.mp hm with rfl | hm
        · exact Or.inl rfl
        · rcases ih hm with h1 | ⟨t', ht', hc'⟩
          · exact Or.inl h1
          · exact Or.inr ⟨t', List.mem_cons_of_mem t ht', hc'⟩

/-- Tokenizing a comma-joined list of non-empty comma-free tokens yields
the tokens back. -/
theorem tokensOf_intercalate (toks : List (List Char)) (hne : toks ≠ [])
    (hc : ∀ t ∈ toks, ',' ∉ t) (hte : ∀ t ∈ toks, t ≠ []) :
    tokensOf (List.intercalate [','] toks) = toks := by
  unfold tokensOf
  rw [List.splitOn_intercalate toks ',' hc hne]
  apply List.filter_eq_self.mpr
  intro t ht
  simpa using hte t ht

/-- Every encoded PWM value of a unit-interval frame lies in [0,255]. -/
theorem encodePwms_bounds (n : NormalizedCurlSet) (h : inUnitInterval n) :
    ∀ p ∈ encodePwms n, 0 ≤ p ∧ p ≤ 255 := by
  obtain ⟨h1, h2, h3, h4, h5, h6, h7, h8, h9, h10, h11, h12⟩ := h
  intro p hp
  simp only [encodePwms, List.mem_cons, List.not_mem_nil, or_false] at hp
  rcases hp with rfl | rfl | rfl | rfl | rfl | rfl
  · exact pwmOfVal_mem _ h1 h2
  · exact pwmOfVal_mem _ h3 h4
  · exact pwmOfVal_mem _ h5 h6
  · exact pwmOfVal_mem _ h7 h8
  · exact pwmOfVal_mem _ h9 h10
  · exact pwmOfVal_mem _ h11 h12

/-- Transport of an encoded frame through framing, trimming and
tokenization: the embedded side recovers exactly the six encoded tokens and
parses them back to the PWM values. -/
theorem encode_transport (n : NormalizedCurlSet) (h : inUnitInterval n) :
    receivedLine (sendSerialData (encodeMessage n)) = encodeMessage n ∧
    trimC (encodeMessage n) = encodeMessage n ∧
    tokensOf (encodeMessage n) =
      (encodePwms n).map (fun p => (toString p).data) ∧
    lineVals (encodeMessage n) = (encodePwms n).map Int.toNat := by
  have hb := encodePwms_bounds n h
  have htf : ∀ t ∈ (encodePwms n).map (fun p => (toString p).data),
      t ≠ [] ∧ ∀ c ∈ t, c ≠ ',' ∧ c ≠ '\n' ∧ isSpaceC c = false := by
    intro t ht
    rcases List.mem_map.mp ht with ⟨p, hp, rfl⟩
    have hfacts := intTok_facts p (Finset.mem_Icc.mpr (hb p hp))
    exact ⟨hfacts.1, hfacts.2.1⟩
  have hchars : ∀ c ∈ encodeMessage n, c ≠ '\n' ∧ isSpaceC c = false := by
    intro c hc
    rcases mem_intercalate_comma _ c hc with rfl | ⟨t, ht, hct⟩
    · exact ⟨by decide, by decide⟩
    · exact ⟨((htf t ht).2 c hct).2.1, ((htf t ht).2 c hct).2.2⟩
  have htok : tokensOf (encodeMessage n) =
      (encodePwms n).map (fun p => (toString p).data) := by
    unfold encodeMessage
    apply tokensOf_intercalate
    · simp [encodePwms]
    · intro t ht hmem
      exact absurd rfl (((htf t ht).2 ',' hmem).1)
    · intro t ht
      exact (htf t ht).1
  refine ⟨?_, ?_, htok, ?_⟩
  · unfold sendSerialData
    have : encodeMessage n ++ ['\n'] = encodeMessage n ++ '\n' :: [] := rfl
    rw [this]
    exact receivedLine_frame _ _ (fun c hc => (hchars c hc).1)
  · exact trimC_eq_self _ (fun c hc => (hchars c hc).2)
  · unfold lineVals
    rw [htok]
    rw [List.take_of_length_le (by simp [encodePwms])]
    rw [List.map_map]
    apply List.map_congr_left
    intro p hp
    have hfacts := intTok_facts p (Finset.mem_Icc.mpr (hb p hp))
    have hbp := hb p hp
    simp only [Function.comp]
    rw [hfacts.2.2]
    unfold constrainI
    split_ifs <;> omega

/-- C5: for a unit-interval frame the encoder produces exactly six
integer tokens, each `round(v * 255)` and in [0,255], in the fixed order
thumb, index, middle, ring, pinky, thumb_rot, comma-joined, and the
serial write appends the trailing newline. -/
theorem encode_produces_six_tokens (n : NormalizedCurlSet)
    (h : inUnitInterval n) :
    (encodePwms n).length = 6 ∧
    encodePwms n = [round (n.thumb * 255), round (n.index * 255),
      round (n.middle * 255), round (n.ring * 255), round (n.pinky * 255),
      round (n.thumb_rot * 255)] ∧
    (∀ p ∈ encodePwms n, 0 ≤ p ∧ p ≤ 255) ∧
    (encodeMessage n).splitOn ',' =
      (encodePwms n).map (fun p => (toString p).data) ∧
    sendSerialData (encodeMessage n) = encodeMessage n ++ ['\n'] := by
  refine ⟨rfl, rfl, encodePwms_bounds n h, ?_, rfl⟩
  have h3 := (encode_transport n h).2.2.1
  unfold tokensOf at h3
  have hfilter :
      ((encodeMessage n).splitOn ',').filter (fun s => !s.isEmpty) =
        (encodeMessage n).splitOn ',' := by
    unfold encodeMessage
    rw [List.splitOn_intercalate ((encodePwms n).map (fun p => (toString p).data))
      ',' ?_ (by simp [encodePwms])]
    · apply List.filter_eq_self.mpr
      intro t ht
      rcases List.mem_map.mp ht with ⟨p, hp, rfl⟩
      simpa using (intTok_facts p
        (Finset.mem_Icc.mpr (encodePwms_bounds n h p hp))).1
    · intro t ht hmem
      rcases List.mem_map.mp ht with ⟨p, hp, rfl⟩
      exact absurd rfl (((intTok_facts p
        (Finset.mem_Icc.mpr (encodePwms_bounds n h p hp))).2.1 ',' hmem).1)
  rw [← hfilter]
  exact h3

/-- Witness for C5 at a concrete frame. -/
theorem encode_produces_six_tokens_witness :
    (encodePwms ⟨1, 0, 1, 0, 1, 0⟩).length = 6 ∧
    (∀ p ∈ encodePwms ⟨1, 0, 1, 0, 1, 0⟩, 0 ≤ p ∧ p ≤ 255) :=
  ⟨(encode_produces_six_tokens ⟨1, 0, 1, 0, 1, 0⟩
      (by norm_num [inUnitInterval])).1,
    (encode_produces_six_tokens ⟨1, 0, 1, 0, 1, 0⟩
      (by norm_num [inUnitInterval])).2.2.1⟩

/-- The wire byte of channel `ch` for an encoded frame. -/
def wirePwm (n : NormalizedCurlSet) (ch : Fin 6) : ℕ :=
  ((encodePwms n).getD ch 0).toNat

/-- The exact per-channel servo map of the spec's static configuration:
the main-channel linear map for channels 0-4, the thumb-rotation
sub-range map for channel 5. -/
def exactAngle (ch : Fin 6) (p : ℕ) : ℚ :=
  if h : (ch : ℕ) < 5 then exactMainAngle ⟨ch, h⟩ p else exactRotAngle p

/-- C1: encoding a unit-interval frame and decoding the resulting line
actuates all six channels, each servo angle within one degree of the
exact linear map of that channel's static configuration. -/
theorem encode_decode_roundtrip (n : NormalizedCurlSet)
    (h : inUnitInterval n) :
    (lineWrites (receivedLine (sendSerialData (encodeMessage n)))).map
        Prod.fst = [0, 1, 2, 3, 4, 5] ∧
    ∀ w ∈ lineWrites (receivedLine (sendSerialData (encodeMessage n))),
      |(w.2 : ℚ) - exactAngle w.1 (wirePwm n w.1)| ≤ 1 := by
  obtain ⟨hrecv, htrim, -, hvals⟩ := encode_transport n h
  have hb := encodePwms_bounds n h
  have hlen : ((encodePwms n).map Int.toNat).length = 6 := by simp [encodePwms]
  have hw : lineWrites (receivedLine (sendSerialData (encodeMessage n))) =
      actuationWrites ((encodePwms n).map Int.toNat) := by
    rw [hrecv, lineWrites_eq_actuation, htrim, hvals]
  rw [hw]
  constructor
  · unfold actuationWrites
    rw [if_pos (by omega), if_pos (by omega)]
    simp only [List.map_append, List.map_map]
    have hc : Prod.fst ∘
        (fun i : Fin 5 =>
          ((i.castSucc : Fin 6),
            mainAngleCode i (((encodePwms n).map Int.toNat).getD i 0))) =
        fun i : Fin 5 => (i.castSucc : Fin 6) := rfl
    rw [hc]
    simp only [List.map_cons, List.map_nil]
    decide
  · intro w hw'
    have hthumb : (pwmOfVal n.thumb).toNat ≤ 255 := by
      have := hb _ (show pwmOfVal n.thumb ∈ encodePwms n by
        simp [encodePwms])
      omega
    have hindex : (pwmOfVal n.index).toNat ≤ 255 := by
      have := hb _ (show pwmOfVal n.index ∈ encodePwms n by
        simp [encodePwms])
      omega
    have hmiddle : (pwmOfVal n.middle).toNat ≤ 255 := by
      have := hb _ (show pwmOfVal n.middle ∈ encodePwms n by
        simp [encodePwms])
      omega
    have hring : (pwmOfVal n.ring).toNat ≤ 255 := by
      have := hb _ (show pwmOfVal n.ring ∈ encodePwms n by
        simp [encodePwms])
      omega
    have hpinky : (pwmOfVal n.pinky).toNat ≤ 255 := by
      have := hb _ (show pwmOfVal n.pinky ∈ encodePwms n by
        simp [encodePwms])
      omega
    unfold actuationWrites at hw'
    rw [if_pos (by omega), if_pos (by omega)] at hw'
    have hfr : List.finRange 5 = [0, 1, 2, 3, 4] := by decide
    rw [hfr] at hw'
    simp only [List.map_cons, List.map_nil, List.cons_append,
      List.nil_append, List.mem_cons, List.not_mem_nil, or_false] at hw'
    rcases hw' with rfl | rfl | rfl | rfl | rfl | rfl
    · exact mainAngleCode_near 0 ((pwmOfVal n.thumb).toNat) hthumb
    · exact mainAngleCode_near 1 ((pwmOfVal n.index).toNat) hindex
    · exact mainAngleCode_near 2 ((pwmOfVal n.middle).toNat) hmiddle
    · exact mainAngleCode_near 3 ((pwmOfVal n.ring).toNat) hring
    · exact mainAngleCode_near 4 ((pwmOfVal n.pinky).toNat) hpinky
    · exact rotAngleCode_near ((pwmOfVal n.thumb_rot).toNat)

/-- Witness for C1 at a concrete frame. -/
theorem encode_decode_roundtrip_witness :
    (lineWrites (receivedLine (sendSerialData
        (encodeMessage ⟨1, 0, 1, 0, 1, 0⟩)))).map Prod.fst =
      [0, 1, 2, 3, 4, 5] :=
  (encode_decode_roundtrip ⟨1, 0, 1, 0, 1, 0⟩
    (by norm_num [inUnitInterval])).1

end BionicHand
